import Mathlib

/-! Verification of the policy template-matching and repository subsystem of
`faxal/ladon` (file `policy/postgres/postgres.go`), as a shallow embedding.

The embedding models:
  * the template compiler (`compiler.CompileRegex` from `ory-am/common`, not
    part of this repository's sources, so modelled from the spec),
  * a small regular-expression engine standing in for the external matching
    engine (Go `regexp` at compile time, Postgres `~*` at query time),
  * the database state (policy table plus the three link tables) and the
    repository operations `Create`, `Get`, `Delete`, `FindPoliciesForSubject`,
    with transactions made explicit and backend failures injectable through a
    fault oracle.
-/

namespace Ladon

/-! Regular expressions.

A minimal regular-expression abstract syntax, with matching by Brzozowski
derivatives.  `Modelled from the spec:` the actual engines (Go `regexp` for
compile-time validation, Postgres `~*` for query-time matching) are external
collaborators; the spec requires only that a compiled template match exactly
the strings the template describes, with the pattern anchored at both ends.
The boolean `ci` flag models the case-insensitivity of the Postgres `~*`
operator used in `FindPoliciesForSubject`. -/

inductive ClassItem where
  | single (c : Char)
  | range (lo hi : Char)
deriving DecidableEq, Repr

inductive Regex where
  | emp
  | eps
  | chr (c : Char)
  | cls (neg : Bool) (items : List ClassItem)
  | dot
  | cat (r₁ r₂ : Regex)
  | alt (r₁ r₂ : Regex)
  | star (r : Regex)
deriving DecidableEq, Repr

/-- Does the regex accept the empty string? -/
def nullable : Regex → Bool
  | .emp => false
  | .eps => true
  | .chr _ => false
  | .cls _ _ => false
  | .dot => false
  | .cat a b => nullable a && nullable b
  | .alt a b => nullable a || nullable b
  | .star _ => true

/-- Character comparison, optionally case-insensitive. -/
def charEq (ci : Bool) (c d : Char) : Bool :=
  if ci then c.toLower == d.toLower else c == d

/-- Does a single class item cover character `d` (case-insensitively when `ci`)? -/
def itemMatch (ci : Bool) (d : Char) : ClassItem → Bool
  | .single c => charEq ci c d
  | .range lo hi =>
      (lo ≤ d && d ≤ hi) ||
        (ci && ((lo ≤ d.toLower && d.toLower ≤ hi) || (lo ≤ d.toUpper && d.toUpper ≤ hi)))

/-- Bracket-expression membership (with negation flag). -/
def inClass (ci : Bool) (neg : Bool) (items : List ClassItem) (d : Char) : Bool :=
  (items.any (itemMatch ci d)) != neg

/-- Brzozowski derivative of a regex with respect to one character. -/
def deriv (ci : Bool) : Regex → Char → Regex
  | .emp, _ => .emp
  | .eps, _ => .emp
  | .chr c, d => if charEq ci c d then .eps else .emp
  | .cls n its, d => if inClass ci n its d then .eps else .emp
  | .dot, _ => .eps
  | .cat a b, d =>
      if nullable a then .alt (.cat (deriv ci a d) b) (deriv ci b d)
      else .cat (deriv ci a d) b
  | .alt a b, d => .alt (deriv ci a d) (deriv ci b d)
  | .star r, d => .cat (deriv ci r d) (.star r)

/-- Full-string acceptance of a character list. -/
def accept (ci : Bool) (r : Regex) (cs : List Char) : Bool :=
  nullable (cs.foldl (deriv ci) r)

/-! The anchored search semantics of the subject-match query.

`FindPoliciesForSubject` matches with the SQL clause
`$1 ~* ('^' || compiled || '$')` (postgres.go line 147).  The Postgres `~*`
operator is substring search: it succeeds when some substring of the
candidate matches the pattern.  The explicit `^` and `$` added around the
stored pattern force that substring to have empty prefix and suffix.  We
model this search faithfully and prove it coincides with full-string
acceptance: a pattern that matches only a proper substring never counts. -/

/-- All ways to split a list into a prefix and a suffix. -/
def splits2 : List Char → List (List Char × List Char)
  | [] => [([], [])]
  | c :: rest => ([], c :: rest) :: (splits2 rest).map (fun pr => (c :: pr.1, pr.2))

/-- Postgres `s ~* ('^' || compiled || '$')`: some substring of `s` with empty
prefix and empty suffix is accepted (case-insensitively) by `compiled`. -/
def pgSearchAnchoredCI (r : Regex) (s : String) : Bool :=
  (splits2 s.data).any fun ab =>
    (splits2 ab.2).any fun mp =>
      ab.1.isEmpty && mp.2.isEmpty && accept true r mp.1

theorem splits2_sound : ∀ (l : List Char) (a b : List Char),
    (a, b) ∈ splits2 l → a ++ b = l := by
  intro l
  induction l with
  | nil =>
    intro a b h
    simp [splits2] at h
    simp [h.1, h.2]
  | cons c rest ih =>
    intro a b h
    simp only [splits2, List.mem_cons, List.mem_map] at h
    rcases h with h | ⟨pr, hmem, heq⟩
    · rw [Prod.mk.injEq] at h
      simp [h.1, h.2]
    · rw [Prod.mk.injEq] at heq
      have := ih pr.1 pr.2 hmem
      rw [← heq.1, ← heq.2]
      simp [this]

theorem splits2_head : ∀ l : List Char, ([], l) ∈ splits2 l := by
  intro l
  cases l with
  | nil => simp [splits2]
  | cons c rest => simp [splits2]

theorem splits2_refl : ∀ l : List Char, (l, []) ∈ splits2 l := by
  intro l
  induction l with
  | nil => simp [splits2]
  | cons c rest ih =>
    simp only [splits2, List.mem_cons, List.mem_map]
    right
    exact ⟨(rest, []), ih, rfl⟩

/-- The anchored search equals full-string acceptance: the added `^`/`$`
anchors mean a pattern matching only a proper substring never counts. -/
theorem pgSearchAnchoredCI_eq_accept (r : Regex) (s : String) :
    pgSearchAnchoredCI r s = accept true r s.data := by
  rw [Bool.eq_iff_iff]
  constructor
  · intro h
    rcases List.any_eq_true.mp h with ⟨ab, habmem, hab⟩
    rcases List.any_eq_true.mp hab with ⟨mp, hmpmem, hmp⟩
    simp only [Bool.and_eq_true, List.isEmpty_iff] at hmp
    obtain ⟨⟨hpre, hpost⟩, hacc⟩ := hmp
    have h1 := splits2_sound _ _ _ habmem
    have h2 := splits2_sound _ _ _ hmpmem
    rw [hpre] at h1
    rw [hpost] at h2
    simp at h1 h2
    rw [h2, h1] at hacc
    exact hacc
  · intro h
    apply List.any_eq_true.mpr
    refine ⟨([], s.data), splits2_head s.data, ?_⟩
    apply List.any_eq_true.mpr
    refine ⟨(s.data, []), splits2_refl s.data, ?_⟩
    simp [h]

/-! Template compilation.

`Modelled from the spec:` `compiler.CompileRegex` lives in `ory-am/common`,
outside this repository's sources.  Per spec section 4.1: the template is
scanned left to right; runs outside a `start … end` delimiter pair are
literal text matching only themselves; the inner content of a delimited span
is a regular-expression fragment; unbalanced delimiters or an invalid
fragment yield a compile error; the final pattern is anchored at both ends
(realised here by the full-string acceptance semantics of `accept`).  The
fragment dialect modelled is the subset exercised by the spec's examples
(literals, `.`, bracket classes with ranges and negation, `\` escapes, and
the postfix repetitions `+`, `*`, `?`); constructs outside the subset are
conservatively rejected. -/

/-- Parse the items of a bracket expression up to the closing `]`. -/
def parseClassItems : List Char → Except String (List ClassItem × List Char)
  | [] => .error "unterminated character class"
  | ']' :: rest => .ok ([], rest)
  | c :: '-' :: d :: rest =>
      if d = ']' then .ok ([.single c, .single '-'], rest)
      else
        match parseClassItems rest with
        | .error e => .error e
        | .ok (its, rem) => .ok (.range c d :: its, rem)
  | c :: rest =>
      match parseClassItems rest with
      | .error e => .error e
      | .ok (its, rem) => .ok (.single c :: its, rem)

/-- Parse one atom of a regular-expression fragment. -/
def parseAtom : List Char → Except String (Regex × List Char)
  | [] => .error "empty atom"
  | '.' :: rest => .ok (.dot, rest)
  | '[' :: '^' :: rest =>
      match parseClassItems rest with
      | .error e => .error e
      | .ok (its, rem) => .ok (.cls true its, rem)
  | '[' :: rest =>
      match parseClassItems rest with
      | .error e => .error e
      | .ok (its, rem) => .ok (.cls false its, rem)
  | '\\' :: c :: rest => .ok (.chr c, rest)
  | '\\' :: [] => .error "trailing backslash"
  | c :: rest =>
      if c = '+' ∨ c = '*' ∨ c = '?' then
        .error "missing argument to repetition operator"
      else if c = '(' ∨ c = ')' ∨ c = '|' ∨ c = '{' ∨ c = '}' then
        .error "construct outside the modelled fragment subset"
      else .ok (.chr c, rest)

/-- Parse a sequence of atoms with optional postfix repetition operators.
The fuel argument bounds recursion depth; `fragLen + 1` always suffices
because every step consumes at least one character. -/
def parseSeqFuel : Nat → List Char → Except String Regex
  | 0, _ => .error "out of fuel"
  | _ + 1, [] => .ok .eps
  | n + 1, l =>
      match parseAtom l with
      | .error e => .error e
      | .ok (a, rest) =>
          let step : Regex × List Char :=
            match rest with
            | '+' :: r2 => (.cat a (.star a), r2)
            | '*' :: r2 => (.star a, r2)
            | '?' :: r2 => (.alt a .eps, r2)
            | _ => (a, rest)
          match parseSeqFuel n step.2 with
          | .error e => .error e
          | .ok b => .ok (.cat step.1 b)

/-- Parse a whole regular-expression fragment (the text between delimiters). -/
def parseFragment (l : List Char) : Except String Regex :=
  parseSeqFuel (l.length + 1) l

/-- Collect the inner text of a delimited span up to the matching end
delimiter, tracking nesting depth; running out of input means the start
delimiter is unterminated. -/
def collectInner (startD endD : Char) : List Char → Nat → Except String (List Char × List Char)
  | [], _ => .error "unbalanced delimiters"
  | c :: rest, level =>
      if c = endD then
        if level = 0 then .ok ([], rest)
        else
          match collectInner startD endD rest (level - 1) with
          | .error e => .error e
          | .ok (inn, rem) => .ok (c :: inn, rem)
      else if c = startD then
        match collectInner startD endD rest (level + 1) with
        | .error e => .error e
        | .ok (inn, rem) => .ok (c :: inn, rem)
      else
        match collectInner startD endD rest level with
        | .error e => .error e
        | .ok (inn, rem) => .ok (c :: inn, rem)

/-- Scan the template: literal characters outside delimiters, fragments
inside.  A stray end delimiter is unbalanced.  Fuelled like `parseSeqFuel`. -/
def scanTemplateFuel (startD endD : Char) : Nat → List Char → Except String Regex
  | 0, _ => .error "out of fuel"
  | _ + 1, [] => .ok .eps
  | n + 1, c :: rest =>
      if c = startD then
        match collectInner startD endD rest 0 with
        | .error e => .error e
        | .ok (inner, rem) =>
            match parseFragment inner with
            | .error e => .error e
            | .ok r =>
                match scanTemplateFuel startD endD n rem with
                | .error e => .error e
                | .ok rs => .ok (.cat r rs)
      else if c = endD then .error "unbalanced delimiters"
      else
        match scanTemplateFuel startD endD n rest with
        | .error e => .error e
        | .ok rs => .ok (.cat (.chr c) rs)

/-- Compile a delimited template into an (implicitly anchored) pattern:
the contract of `compiler.CompileRegex(template, startDelimiter, endDelimiter)`. -/
def CompileRegex (tpl : String) (startD endD : Char) : Except String Regex :=
  scanTemplateFuel startD endD (tpl.data.length + 1) tpl.data

/-! Conditions serialization.

`Modelled from the spec:` `encoding/json` is external.  The conditions
column stores an opaque structured blob; we represent the blob by its parse
result: a well-formed blob denotes the collection it encodes, any other text
is garbage that fails to decode.  Condition descriptors themselves are
opaque, represented as strings. -/

abbrev Conditions := List String

inductive CondBlob where
  | wellFormed (cs : Conditions)
  | garbage (s : String)
deriving DecidableEq, Repr

/-- Serialization (`json.Marshal`) of a conditions collection. -/
def jsonMarshal (cs : Conditions) : CondBlob := .wellFormed cs

/-! Data model: rows, the database, policies, faults.

The visible database state holds the `ladon_policy` table plus the three
link tables of the schema (postgres.go lines 14-41).  A transaction is a
snapshot of the database; writes inside it become visible only at commit. -/

structure PolicyRow where
  id : String
  description : String
  effect : String
  conditions : CondBlob
deriving DecidableEq, Repr

structure LinkRow where
  compiled : Regex
  template : String
  policy : String
deriving DecidableEq, Repr

structure DB where
  policies : List PolicyRow
  subjectLinks : List LinkRow
  permissionLinks : List LinkRow
  resourceLinks : List LinkRow
deriving DecidableEq, Repr

/-- The three link tables (`ladon_policy_subject` / `_permission` / `_resource`). -/
inductive Table where
  | subject
  | permission
  | resource
deriving DecidableEq, Repr

def linksOf : Table → DB → List LinkRow
  | .subject, d => d.subjectLinks
  | .permission, d => d.permissionLinks
  | .resource, d => d.resourceLinks

def insertLink : Table → LinkRow → DB → DB
  | .subject, l, d => { d with subjectLinks := d.subjectLinks ++ [l] }
  | .permission, l, d => { d with permissionLinks := d.permissionLinks ++ [l] }
  | .resource, l, d => { d with resourceLinks := d.resourceLinks ++ [l] }

/-- The `DefaultPolicy` of the ladon policy package: the concrete policy record
passed to `Create` and rebuilt by `Get`.  `Conditions = none` models a Go
nil conditions slice; the delimiters are the policy's
`GetStartDelimiter`/`GetEndDelimiter` (`<` and `>` for `DefaultPolicy`). -/
structure DefaultPolicy where
  ID : String
  Description : String
  Effect : String
  Conditions : Option Conditions
  Subjects : List String
  Permissions : List String
  Resources : List String
  startDelim : Char
  endDelim : Char
deriving DecidableEq, Repr

/-- Error taxonomy of the embedding.  `notFound` is `pkg.ErrNotFound`; the
rest stand for the distinct storage-layer failures the code can meet (the
Go code wraps them with `errors.New`, which preserves identity). -/
inductive Err where
  | notFound
  | marshalFailed
  | unmarshalFailed
  | beginFailed
  | policyInsertFailed
  | duplicateId
  | checkViolation
  | execFailed (tb : Table)
  | duplicateKey (tb : Table)
  | commitFailed
  | rollbackFailed
  | rowQueryFailed
  | queryFailed (tb : Table)
  | subjectQueryFailed
  | globalQueryFailed
deriving DecidableEq, Repr

/-- Outcome of an operation that may also terminate by a Go panic. -/
inductive Outcome (α : Type) where
  | ok (a : α)
  | err (e : Err)
  | panic
deriving DecidableEq, Repr

instance exceptDecEq {ε α : Type} [DecidableEq ε] [DecidableEq α] :
    DecidableEq (Except ε α) := fun a b =>
  match a, b with
  | .ok x, .ok y =>
      if h : x = y then .isTrue (by rw [h]) else .isFalse (fun hc => h (Except.ok.inj hc))
  | .error e, .error e' =>
      if h : e = e' then .isTrue (by rw [h]) else .isFalse (fun hc => h (Except.error.inj hc))
  | .ok _, .error _ => .isFalse (fun hc => Except.noConfusion hc)
  | .error _, .ok _ => .isFalse (fun hc => Except.noConfusion hc)

/-- Injectable backend failures.  Each flag makes the corresponding
storage-layer call fail; `noFaults` is the healthy backend. -/
structure Faults where
  marshalFails : Bool
  beginFails : Bool
  insertPolicyFails : Bool
  linkFails : Table → String → Bool
  commitFails : Bool
  rollbackFails : Bool
  rowQueryFails : Bool
  getLinkedFails : Table → Bool
  findSubjectsFails : Bool
  findGlobalsFails : Bool

def noFaults : Faults :=
  { marshalFails := false
    beginFails := false
    insertPolicyFails := false
    linkFails := fun _ _ => false
    commitFails := false
    rollbackFails := false
    rowQueryFails := false
    getLinkedFails := fun _ => false
    findSubjectsFails := false
    findGlobalsFails := false }

/-! The repository operations (postgres.go lines 61-201). -/

/-- The serialization stage of `Create` (lines 62-69): a nil conditions
slice is persisted as the literal `[]`, otherwise `json.Marshal` runs. -/
def serializeConditions (f : Faults) (p : DefaultPolicy) : Except Err CondBlob :=
  match p.Conditions with
  | none => .ok (CondBlob.wellFormed [])
  | some cs => if f.marshalFails then .error Err.marshalFailed else .ok (jsonMarshal cs)

/-- The `createLink` helper (lines 187-201).  Source bug kept faithfully: the error of
`compiler.CompileRegex` is assigned but never checked, so on compile failure
`reg` is nil and `reg.String()` panics with a nil-pointer dereference.  On an
insert failure the transaction is rolled back; if the rollback also fails,
only the rollback error is returned. -/
def createLink (f : Faults) (tb : Table) (p : DefaultPolicy) :
    List String → DB → Outcome Unit × DB
  | [], tx => (.ok (), tx)
  | t :: rest, tx =>
      match (CompileRegex t p.startDelim p.endDelim).toOption with
      | none => (.panic, tx)
      | some reg =>
          if f.linkFails tb t then
            if f.rollbackFails then (.err Err.rollbackFailed, tx)
            else (.err (Err.execFailed tb), tx)
          else if (linksOf tb tx).any (fun l => l.template == t && l.policy == p.ID) then
            if f.rollbackFails then (.err Err.rollbackFailed, tx)
            else (.err (Err.duplicateKey tb), tx)
          else
            createLink f tb p rest
              (insertLink tb { compiled := reg, template := t, policy := p.ID } tx)

/-- The `Store.Create` operation (lines 61-89).  The returned `DB` is the state visible to
other readers afterwards: it changes only on a successful commit.  The
policy-row insert honours the id primary key and the
`effect='allow' OR effect='deny'` check constraint of the schema.  On a
commit failure the code attempts a rollback and, if that also fails, returns
only the rollback error. -/
def Create (f : Faults) (db : DB) (p : DefaultPolicy) : Outcome Unit × DB :=
  match serializeConditions f p with
  | .error e => (.err e, db)
  | .ok blob =>
      if f.beginFails then (.err Err.beginFailed, db)
      else if f.insertPolicyFails then (.err Err.policyInsertFailed, db)
      else if db.policies.any (fun r => r.id == p.ID) then (.err Err.duplicateId, db)
      else if !(p.Effect == "allow" || p.Effect == "deny") then (.err Err.checkViolation, db)
      else
        let tx0 : DB :=
          { db with
            policies := db.policies ++
              [{ id := p.ID, description := p.Description, effect := p.Effect,
                 conditions := blob }] }
        let r1 := createLink f .subject p p.Subjects tx0
        match r1.1 with
        | .err e => (.err e, db)
        | .panic => (.panic, db)
        | .ok _ =>
            let r2 := createLink f .permission p p.Permissions r1.2
            match r2.1 with
            | .err e => (.err e, db)
            | .panic => (.panic, db)
            | .ok _ =>
                let r3 := createLink f .resource p p.Resources r2.2
                match r3.1 with
                | .err e => (.err e, db)
                | .panic => (.panic, db)
                | .ok _ =>
                    if f.commitFails then
                      if f.rollbackFails then (.err Err.rollbackFailed, db)
                      else (.err Err.commitFailed, db)
                    else (.ok (), r3.2)

/-- Deserialization (`json.Unmarshal`) of the conditions column (line 100). -/
def jsonUnmarshal : CondBlob → Except Err Conditions
  | .wellFormed cs => .ok cs
  | .garbage _ => .error Err.unmarshalFailed

/-- The `getLinked` helper (lines 167-185): the templates of one dimension of a policy.
A `SELECT` returning zero rows is not an error at this layer (`db.Query`
never yields `sql.ErrNoRows`, so the `ErrNotFound` branch of the source is
dead); the result is then the empty list. -/
def getLinked (f : Faults) (db : DB) (tb : Table) (id : String) : Except Err (List String) :=
  if f.getLinkedFails tb then .error (Err.queryFailed tb)
  else .ok (((linksOf tb db).filter (fun l => l.policy == id)).map (fun l => l.template))

/-- The `Store.Get` operation (lines 91-121). -/
def Get (f : Faults) (db : DB) (id : String) : Except Err DefaultPolicy :=
  if f.rowQueryFails then .error Err.rowQueryFailed
  else
    match db.policies.find? (fun r => r.id == id) with
    | none => .error Err.notFound
    | some row =>
        match jsonUnmarshal row.conditions with
        | .error e => .error e
        | .ok cs =>
            match getLinked f db .subject id with
            | .error e => .error e
            | .ok subjects =>
                match getLinked f db .permission id with
                | .error e => .error e
                | .ok permissions =>
                    match getLinked f db .resource id with
                    | .error e => .error e
                    | .ok resources =>
                        .ok { ID := row.id, Description := row.description,
                              Effect := row.effect, Conditions := some cs,
                              Subjects := subjects, Permissions := permissions,
                              Resources := resources,
                              startDelim := '<', endDelim := '>' }

/-- The `Store.Delete` operation (lines 123-126): the schema's `ON DELETE CASCADE` removes
the three dimensions' link rows with the policy row. -/
def Delete (db : DB) (id : String) : Except Err DB :=
  .ok { policies := db.policies.filter (fun r => !(r.id == id))
        subjectLinks := db.subjectLinks.filter (fun l => !(l.policy == id))
        permissionLinks := db.permissionLinks.filter (fun l => !(l.policy == id))
        resourceLinks := db.resourceLinks.filter (fun l => !(l.policy == id)) }

/-- The subject-match clause of `FindPoliciesForSubject` (line 147):
`SELECT policy FROM ladon_policy_subject WHERE $1 ~* ('^' || compiled || '$')`
— one result row per matching link row, no `DISTINCT`. -/
def subjectMatchIds (db : DB) (s : String) : List String :=
  (db.subjectLinks.filter (fun l => pgSearchAnchoredCI l.compiled s)).map (fun l => l.policy)

/-- The global-policy clause (line 151): ids of policies with no subject
link row at all (`LEFT JOIN … WHERE ps.policy IS NULL`). -/
def globalIds (db : DB) : List String :=
  (db.policies.filter (fun r => db.subjectLinks.all (fun l => !(l.policy == r.id)))).map
    (fun r => r.id)

/-- The hydration loop of `FindPoliciesForSubject` (lines 157-163): each id
is fetched with `Get`; the first failure aborts. -/
def hydrate (f : Faults) (db : DB) : List String → Except Err (List DefaultPolicy)
  | [] => .ok []
  | id :: rest =>
      match Get f db id with
      | .error e => .error e
      | .ok p =>
          match hydrate f db rest with
          | .error e => .error e
          | .ok ps => .ok (p :: ps)

/-- The `Store.FindPoliciesForSubject` operation (lines 128-165). -/
def FindPoliciesForSubject (f : Faults) (db : DB) (s : String) :
    Except Err (List DefaultPolicy) :=
  if f.findSubjectsFails then .error Err.subjectQueryFailed
  else if f.findGlobalsFails then .error Err.globalQueryFailed
  else hydrate f db (subjectMatchIds db s ++ globalIds db)

/-! Helper lemmas. -/

def linkKey (l : LinkRow) : String × String := (l.template, l.policy)

theorem linksOf_insert_same (tb : Table) (l : LinkRow) (d : DB) :
    linksOf tb (insertLink tb l d) = linksOf tb d ++ [l] := by
  cases tb <;> rfl

theorem linksOf_insert_other (tb tb' : Table) (l : LinkRow) (d : DB) (h : tb' ≠ tb) :
    linksOf tb' (insertLink tb l d) = linksOf tb' d := by
  cases tb <;> cases tb' <;> first | rfl | exact absurd rfl h

theorem policies_insert (tb : Table) (l : LinkRow) (d : DB) :
    (insertLink tb l d).policies = d.policies := by
  cases tb <;> rfl

theorem serializeConditions_ok (f : Faults) (p : DefaultPolicy)
    (hm : f.marshalFails = false) :
    serializeConditions f p = .ok (CondBlob.wellFormed (p.Conditions.getD [])) := by
  cases h : p.Conditions <;> simp [serializeConditions, h, hm, jsonMarshal]

theorem createLink_ok (f : Faults) (tb : Table) (p : DefaultPolicy) :
    ∀ (ts : List String) (tx : DB),
    (∀ t ∈ ts, (CompileRegex t p.startDelim p.endDelim).isOk = true) →
    (∀ t ∈ ts, f.linkFails tb t = false) →
    ts.Nodup →
    (∀ l ∈ linksOf tb tx, l.policy = p.ID → l.template ∉ ts) →
    ∃ tx', createLink f tb p ts tx = (.ok (), tx') ∧
      (linksOf tb tx').map linkKey =
        (linksOf tb tx).map linkKey ++ ts.map (fun t => (t, p.ID)) ∧
      tx'.policies = tx.policies ∧
      ∀ tb', tb' ≠ tb → linksOf tb' tx' = linksOf tb' tx := by
  intro ts
  induction ts with
  | nil =>
    intro tx _ _ _ _
    exact ⟨tx, rfl, by simp, rfl, fun _ _ => rfl⟩
  | cons t rest ih =>
    intro tx hc hf hnd hfresh
    have hct := hc t (List.mem_cons_self t rest)
    obtain ⟨reg, hreg⟩ : ∃ reg, CompileRegex t p.startDelim p.endDelim = .ok reg := by
      cases h : CompileRegex t p.startDelim p.endDelim with
      | ok r => exact ⟨r, rfl⟩
      | error e => rw [h] at hct; simp [Except.isOk, Except.toBool] at hct
    have hany : (linksOf tb tx).any (fun l => l.template == t && l.policy == p.ID) = false := by
      apply List.any_eq_false.mpr
      intro l hl hcontra
      simp only [Bool.and_eq_true, beq_iff_eq] at hcontra
      exact hfresh l hl hcontra.2 (hcontra.1 ▸ List.mem_cons_self t rest)
    have hrest := ih (insertLink tb { compiled := reg, template := t, policy := p.ID } tx)
      (fun u hu => hc u (List.mem_cons_of_mem t hu))
      (fun u hu => hf u (List.mem_cons_of_mem t hu))
      (List.nodup_cons.mp hnd).2
      (by
        intro l hl hpol
        rw [linksOf_insert_same] at hl
        rcases List.mem_append.mp hl with hold | hnew
        · intro hmem
          exact hfresh l hold hpol (List.mem_cons_of_mem t hmem)
        · simp at hnew
          rw [hnew]
          exact (List.nodup_cons.mp hnd).1)
    obtain ⟨tx', heq, hmap, hpol, hoth⟩ := hrest
    refine ⟨tx', ?_, ?_, ?_, ?_⟩
    · simp only [createLink, hreg, Except.toOption, hf t (List.mem_cons_self t rest), hany]
      simpa using heq
    · rw [hmap, linksOf_insert_same]
      simp [linkKey]
    · rw [hpol, policies_insert]
    · intro tb' htb'
      rw [hoth tb' htb', linksOf_insert_other tb tb' _ _ htb']

theorem createLink_ok_mono (f : Faults) (tb : Table) (p : DefaultPolicy) :
    ∀ (ts : List String) (tx tx' : DB),
    createLink f tb p ts tx = (.ok (), tx') →
    tx'.policies = tx.policies ∧
    (∀ tb', linksOf tb' tx ⊆ linksOf tb' tx') ∧
    (∀ t ∈ ts, ∃ l ∈ linksOf tb tx', l.template = t ∧ l.policy = p.ID) := by
  intro ts
  induction ts with
  | nil =>
    intro tx tx' h
    simp only [createLink, Prod.mk.injEq] at h
    rw [← h.2]
    exact ⟨rfl, fun _ => List.Subset.refl _, by simp⟩
  | cons t rest ih =>
    intro tx tx' h
    simp only [createLink] at h
    cases hcr : (CompileRegex t p.startDelim p.endDelim).toOption with
    | none => rw [hcr] at h; simp at h
    | some reg =>
      rw [hcr] at h
      dsimp only at h
      by_cases hf : f.linkFails tb t
      · rw [if_pos hf] at h
        split at h <;> simp at h
      · rw [if_neg hf] at h
        by_cases hany : (linksOf tb tx).any (fun l => l.template == t && l.policy == p.ID)
        · rw [if_pos hany] at h
          split at h <;> simp at h
        · rw [if_neg hany] at h
          have hrec := ih _ _ h
          obtain ⟨hpol, hsub, hmem⟩ := hrec
          refine ⟨by rw [hpol, policies_insert], ?_, ?_⟩
          · intro tb'
            intro x hx
            apply hsub tb'
            by_cases htb : tb' = tb
            · subst htb
              rw [linksOf_insert_same]
              exact List.mem_append_left _ hx
            · rw [linksOf_insert_other tb tb' _ _ htb]
              exact hx
          · intro u hu
            rcases List.mem_cons.mp hu with hut | hur
            · refine ⟨{ compiled := reg, template := t, policy := p.ID }, ?_, by simp [hut]⟩
              apply hsub tb
              rw [linksOf_insert_same]
              exact List.mem_append_right _ (by simp)
            · exact hmem u hur

theorem Create_snd (f : Faults) (db : DB) (p : DefaultPolicy) :
    (Create f db p).2 = db ∨ (Create f db p).1 = .ok () := by
  unfold Create
  dsimp only
  repeat' split
  all_goals simp

/-- A successful run of `Create` commits exactly the policy row plus the
three dimensions' link rows. -/
theorem Create_ok (f : Faults) (db : DB) (p : DefaultPolicy)
    (hm : f.marshalFails = false) (hb : f.beginFails = false)
    (hi : f.insertPolicyFails = false) (hcm : f.commitFails = false)
    (hfl : ∀ tb t, f.linkFails tb t = false)
    (hfresh : ∀ r ∈ db.policies, r.id ≠ p.ID)
    (heff : p.Effect = "allow" ∨ p.Effect = "deny")
    (hcS : ∀ t ∈ p.Subjects, (CompileRegex t p.startDelim p.endDelim).isOk = true)
    (hcP : ∀ t ∈ p.Permissions, (CompileRegex t p.startDelim p.endDelim).isOk = true)
    (hcR : ∀ t ∈ p.Resources, (CompileRegex t p.startDelim p.endDelim).isOk = true)
    (hndS : p.Subjects.Nodup) (hndP : p.Permissions.Nodup) (hndR : p.Resources.Nodup)
    (hlS : ∀ l ∈ db.subjectLinks, l.policy ≠ p.ID)
    (hlP : ∀ l ∈ db.permissionLinks, l.policy ≠ p.ID)
    (hlR : ∀ l ∈ db.resourceLinks, l.policy ≠ p.ID) :
    ∃ db', Create f db p = (.ok (), db') ∧
      db'.policies = db.policies ++
        [{ id := p.ID, description := p.Description, effect := p.Effect,
           conditions := CondBlob.wellFormed (p.Conditions.getD []) }] ∧
      db'.subjectLinks.map linkKey =
        db.subjectLinks.map linkKey ++ p.Subjects.map (fun t => (t, p.ID)) ∧
      db'.permissionLinks.map linkKey =
        db.permissionLinks.map linkKey ++ p.Permissions.map (fun t => (t, p.ID)) ∧
      db'.resourceLinks.map linkKey =
        db.resourceLinks.map linkKey ++ p.Resources.map (fun t => (t, p.ID)) := by
  have hany : db.policies.any (fun r => r.id == p.ID) = false := by
    apply List.any_eq_false.mpr
    intro r hr
    simpa using hfresh r hr
  have heffb : (!(p.Effect == "allow" || p.Effect == "deny")) = false := by
    rcases heff with h | h <;> simp [h]
  set tx0 : DB :=
    { db with
      policies := db.policies ++
        [{ id := p.ID, description := p.Description, effect := p.Effect,
           conditions := CondBlob.wellFormed (p.Conditions.getD []) }] } with htx0
  obtain ⟨tx1, he1, hmap1, hpol1, hoth1⟩ :=
    createLink_ok f .subject p p.Subjects tx0 hcS (fun t _ => hfl .subject t) hndS
      (fun l hl hp => absurd hp (hlS l hl))
  obtain ⟨tx2, he2, hmap2, hpol2, hoth2⟩ :=
    createLink_ok f .permission p p.Permissions tx1 hcP (fun t _ => hfl .permission t) hndP
      (by
        intro l hl hp
        rw [hoth1 .permission (by decide)] at hl
        exact absurd hp (hlP l hl))
  obtain ⟨tx3, he3, hmap3, hpol3, hoth3⟩ :=
    createLink_ok f .resource p p.Resources tx2 hcR (fun t _ => hfl .resource t) hndR
      (by
        intro l hl hp
        rw [hoth2 .resource (by decide), hoth1 .resource (by decide)] at hl
        exact absurd hp (hlR l hl))
  have hsub3 : linksOf .subject tx3 = linksOf .subject tx1 := by
    rw [hoth3 .subject (by decide), hoth2 .subject (by decide)]
  have hperm3 : linksOf .permission tx3 = linksOf .permission tx2 :=
    hoth3 .permission (by decide)
  have hperm1 : linksOf .permission tx1 = linksOf .permission tx0 :=
    hoth1 .permission (by decide)
  have hres2 : linksOf .resource tx2 = linksOf .resource tx0 := by
    rw [hoth2 .resource (by decide), hoth1 .resource (by decide)]
  refine ⟨tx3, ?_, ?_, ?_, ?_, ?_⟩
  · unfold Create
    rw [serializeConditions_ok f p hm]
    dsimp only
    rw [hb, hi, hany, heffb]
    simp only [Bool.false_eq_true, if_false]
    rw [← htx0, he1]
    dsimp only
    rw [he2]
    dsimp only
    rw [he3]
    dsimp only
    rw [hcm]
    simp
  · rw [hpol3, hpol2, hpol1, htx0]
  · show (linksOf .subject tx3).map linkKey =
      (linksOf .subject db).map linkKey ++ p.Subjects.map (fun t => (t, p.ID))
    rw [hsub3, hmap1]
    rfl
  · show (linksOf .permission tx3).map linkKey =
      (linksOf .permission db).map linkKey ++ p.Permissions.map (fun t => (t, p.ID))
    rw [hperm3, hmap2, hperm1]
    rfl
  · show (linksOf .resource tx3).map linkKey =
      (linksOf .resource db).map linkKey ++ p.Resources.map (fun t => (t, p.ID))
    rw [hmap3, hres2]
    rfl

theorem Get_ok_ID (f : Faults) (db : DB) (id : String) (q : DefaultPolicy)
    (h : Get f db id = .ok q) : q.ID = id := by
  unfold Get at h
  split at h
  · simp at h
  · split at h
    · simp at h
    · next row hfind =>
      split at h
      · simp at h
      · split at h
        · simp at h
        · split at h
          · simp at h
          · split at h
            · simp at h
            · have hrow := List.find?_some hfind
              simp only [beq_iff_eq] at hrow
              simp only [Except.ok.injEq] at h
              rw [← h]
              exact hrow

/-- Evaluation of a healthy `Get` of an existing, well-formed row. -/
theorem Get_ok_shape (f : Faults) (db : DB) (id : String) (row : PolicyRow) (cs : Conditions)
    (hq : f.rowQueryFails = false)
    (hfind : db.policies.find? (fun r => r.id == id) = some row)
    (hum : jsonUnmarshal row.conditions = .ok cs)
    (hgl : ∀ tb, f.getLinkedFails tb = false) :
    Get f db id = .ok
      { ID := row.id, Description := row.description, Effect := row.effect,
        Conditions := some cs,
        Subjects := ((linksOf .subject db).filter (fun l => l.policy == id)).map
          (fun l => l.template),
        Permissions := ((linksOf .permission db).filter (fun l => l.policy == id)).map
          (fun l => l.template),
        Resources := ((linksOf .resource db).filter (fun l => l.policy == id)).map
          (fun l => l.template),
        startDelim := '<', endDelim := '>' } := by
  unfold Get
  rw [hq]
  simp only [Bool.false_eq_true, if_false]
  rw [hfind]
  dsimp only
  rw [hum]
  dsimp only
  unfold getLinked
  rw [hgl .subject, hgl .permission, hgl .resource]
  simp only [Bool.false_eq_true, if_false]

theorem hydrate_ok (f : Faults) (db : DB) :
    ∀ ids : List String,
    (∀ id ∈ ids, ∃ q, Get f db id = .ok q) →
    ∃ ps, hydrate f db ids = .ok ps ∧ ps.map (fun q => q.ID) = ids := by
  intro ids
  induction ids with
  | nil => intro _; exact ⟨[], rfl, rfl⟩
  | cons id rest ih =>
    intro hall
    obtain ⟨q, hq⟩ := hall id (List.mem_cons_self id rest)
    obtain ⟨ps, hps, hmap⟩ := ih (fun u hu => hall u (List.mem_cons_of_mem id hu))
    refine ⟨q :: ps, ?_, ?_⟩
    · simp only [hydrate, hq, hps]
    · simp [hmap, Get_ok_ID f db id q hq]

theorem createLink_ok_mono' (f : Faults) (tb : Table) (p : DefaultPolicy)
    (ts : List String) (tx : DB)
    (h : (createLink f tb p ts tx).1 = .ok ()) :
    (createLink f tb p ts tx).2.policies = tx.policies ∧
    (∀ tb', linksOf tb' tx ⊆ linksOf tb' (createLink f tb p ts tx).2) ∧
    (∀ t ∈ ts, ∃ l ∈ linksOf tb (createLink f tb p ts tx).2,
      l.template = t ∧ l.policy = p.ID) :=
  createLink_ok_mono f tb p ts tx (createLink f tb p ts tx).2 (by rw [← h])

/-- Whatever the faults, a `Create` that reports success has committed the
policy row and one link row per template in each dimension. -/
theorem Create_ok_visible (f : Faults) (db : DB) (p : DefaultPolicy) :
    (Create f db p).1 = .ok () →
    (∃ r ∈ (Create f db p).2.policies, r.id = p.ID) ∧
    (∀ t ∈ p.Subjects, ∃ l ∈ (Create f db p).2.subjectLinks,
      l.template = t ∧ l.policy = p.ID) ∧
    (∀ t ∈ p.Permissions, ∃ l ∈ (Create f db p).2.permissionLinks,
      l.template = t ∧ l.policy = p.ID) ∧
    (∀ t ∈ p.Resources, ∃ l ∈ (Create f db p).2.resourceLinks,
      l.template = t ∧ l.policy = p.ID) := by
  unfold Create
  dsimp only
  split
  · intro hok; simp at hok
  · split
    · intro hok; simp at hok
    · split
      · intro hok; simp at hok
      · split
        · intro hok; simp at hok
        · split
          · intro hok; simp at hok
          · split
            · intro hok; simp at hok
            · intro hok; simp at hok
            · next a1 heq1 =>
              split
              · intro hok; simp at hok
              · intro hok; simp at hok
              · next a2 heq2 =>
                split
                · intro hok; simp at hok
                · intro hok; simp at hok
                · next a3 heq3 =>
                  split
                  · split
                    · intro hok; simp at hok
                    · intro hok; simp at hok
                  · intro _
                    cases a1
                    cases a2
                    cases a3
                    obtain ⟨hpol1, hsub1, hmem1⟩ := createLink_ok_mono' f _ p _ _ heq1
                    obtain ⟨hpol2, hsub2, hmem2⟩ := createLink_ok_mono' f _ p _ _ heq2
                    obtain ⟨hpol3, hsub3, hmem3⟩ := createLink_ok_mono' f _ p _ _ heq3
                    dsimp only
                    refine ⟨?_, ?_, ?_, ?_⟩
                    · rw [hpol3, hpol2, hpol1]
                      exact ⟨_, List.mem_append_right _ (List.mem_singleton.mpr rfl), rfl⟩
                    · intro t ht
                      obtain ⟨l, hl, hprop⟩ := hmem1 t ht
                      exact ⟨l, hsub3 .subject (hsub2 .subject hl), hprop⟩
                    · intro t ht
                      obtain ⟨l, hl, hprop⟩ := hmem2 t ht
                      exact ⟨l, hsub3 .permission hl, hprop⟩
                    · intro t ht
                      exact hmem3 t ht

theorem hydrate_map_ID (f : Faults) (db : DB) :
    ∀ (ids : List String) (ps : List DefaultPolicy),
    hydrate f db ids = .ok ps → ps.map (fun q => q.ID) = ids := by
  intro ids
  induction ids with
  | nil =>
    intro ps h
    simp only [hydrate, Except.ok.injEq] at h
    simp [← h]
  | cons id rest ih =>
    intro ps h
    simp only [hydrate] at h
    cases hg : Get f db id with
    | error e => rw [hg] at h; simp at h
    | ok q =>
      rw [hg] at h
      dsimp only at h
      cases hr : hydrate f db rest with
      | error e => rw [hr] at h; simp at h
      | ok ps' =>
        rw [hr] at h
        simp only [Except.ok.injEq] at h
        rw [← h]
        simp [ih ps' hr, Get_ok_ID f db id q hg]

theorem find_noFaults (db : DB) (s : String) :
    FindPoliciesForSubject noFaults db s =
      hydrate noFaults db (subjectMatchIds db s ++ globalIds db) := rfl

theorem find?_append_right (l : List PolicyRow) (x : PolicyRow) (pred : PolicyRow → Bool)
    (h : ∀ a ∈ l, pred a = false) (hx : pred x = true) :
    (l ++ [x]).find? pred = some x := by
  induction l with
  | nil => simp [List.find?, hx]
  | cons a rest ih =>
    simp only [List.cons_append, List.find?]
    rw [h a (List.mem_cons_self a rest)]
    exact ih (fun b hb => h b (List.mem_cons_of_mem a hb))

theorem filter_map_template (L Lold : List LinkRow) (ts : List String) (id : String)
    (hmap : L.map linkKey = Lold.map linkKey ++ ts.map (fun t => (t, id)))
    (hold : ∀ l ∈ Lold, l.policy ≠ id) :
    (L.filter (fun l => l.policy == id)).map (fun l => l.template) = ts := by
  have h1 : (L.filter (fun l => l.policy == id)).map (fun l => l.template)
      = ((L.map linkKey).filter (fun k => k.2 == id)).map (fun k => k.1) := by
    rw [List.filter_map, List.map_map]
    rfl
  rw [h1, hmap, List.filter_append]
  have h2 : (Lold.map linkKey).filter (fun k => k.2 == id) = [] := by
    rw [List.filter_eq_nil_iff]
    intro k hk
    obtain ⟨l, hl, rfl⟩ := List.mem_map.mp hk
    simpa [linkKey] using hold l hl
  have h3 : (ts.map (fun t => (t, id))).filter (fun k => k.2 == id)
      = ts.map (fun t => (t, id)) := by
    rw [List.filter_eq_self]
    intro k hk
    obtain ⟨t, ht, rfl⟩ := List.mem_map.mp hk
    simp
  rw [h2, h3, List.nil_append, List.map_map]
  show ts.map (fun t => t) = ts
  exact List.map_id' ts

theorem count_map_eq_length_filter (f : LinkRow → String) (l : List LinkRow) (b : String) :
    (l.map f).count b = (l.filter (fun a => f a == b)).length := by
  induction l with
  | nil => rfl
  | cons a rest ih =>
    simp only [List.map_cons, List.filter_cons]
    cases h : (f a == b) with
    | true => simp [List.count_cons, h, ih]
    | false => simp [List.count_cons, h, ih]

/-! Concrete fixtures used by witnesses and counterexamples. -/

def dbEmpty : DB :=
  { policies := [], subjectLinks := [], permissionLinks := [], resourceLinks := [] }

def samplePolicy : DefaultPolicy :=
  { ID := "p1"
    Description := "d"
    Effect := "allow"
    Conditions := some ["c1"]
    Subjects := ["users:<.+>"]
    Permissions := ["view"]
    Resources := ["articles:1"]
    startDelim := '<'
    endDelim := '>' }

def fCommit : Faults := { noFaults with commitFails := true }

/-! The claims. -/

/-- C1: Create is all-or-nothing: if any stage fails (serialization, the
policy-row insert, any link insert — including the panic on a bad template),
the visible database is unchanged and a subsequent Get of a fresh id returns
NotFound; on success the policy row and all three dimensions' link entries
are visible together. -/
theorem C1_create_all_or_nothing (f : Faults) (db : DB) (p : DefaultPolicy) :
    ((Create f db p).1 ≠ .ok () →
      (Create f db p).2 = db ∧
      ((∀ r ∈ db.policies, r.id ≠ p.ID) →
        Get noFaults (Create f db p).2 p.ID = .error Err.notFound)) ∧
    ((Create f db p).1 = .ok () →
      (∃ r ∈ (Create f db p).2.policies, r.id = p.ID) ∧
      (∀ t ∈ p.Subjects, ∃ l ∈ (Create f db p).2.subjectLinks,
        l.template = t ∧ l.policy = p.ID) ∧
      (∀ t ∈ p.Permissions, ∃ l ∈ (Create f db p).2.permissionLinks,
        l.template = t ∧ l.policy = p.ID) ∧
      (∀ t ∈ p.Resources, ∃ l ∈ (Create f db p).2.resourceLinks,
        l.template = t ∧ l.policy = p.ID)) := by
  constructor
  · intro hne
    have hsnd : (Create f db p).2 = db := (Create_snd f db p).resolve_right hne
    refine ⟨hsnd, fun hfresh => ?_⟩
    rw [hsnd]
    unfold Get
    have hnone : db.policies.find? (fun r => r.id == p.ID) = none :=
      List.find?_eq_none.mpr (fun r hr => by simpa using hfresh r hr)
    rw [hnone]
    rfl
  · exact Create_ok_visible f db p

/-- Witness for C1: a commit failure leaves the store empty and Get returns
NotFound. -/
theorem C1_create_all_or_nothing_witness :
    (Create fCommit dbEmpty samplePolicy).2 = dbEmpty ∧
    Get noFaults (Create fCommit dbEmpty samplePolicy).2 samplePolicy.ID =
      .error Err.notFound := by
  have h := (C1_create_all_or_nothing fCommit dbEmpty samplePolicy).1 (by decide)
  exact ⟨h.1, h.2 (by decide)⟩

/-- C2: round-trip: for a valid policy (fresh id, allow/deny effect,
non-empty duplicate-free compilable template sets), Create then Get returns
a record equal in id, description, effect, conditions (a nil conditions
slice round-trips to the empty collection it is persisted as), and in the
three template sets, both as lists and hence as sets. -/
theorem C2_round_trip (db : DB) (p : DefaultPolicy)
    (hfresh : ∀ r ∈ db.policies, r.id ≠ p.ID)
    (hlS : ∀ l ∈ db.subjectLinks, l.policy ≠ p.ID)
    (hlP : ∀ l ∈ db.permissionLinks, l.policy ≠ p.ID)
    (hlR : ∀ l ∈ db.resourceLinks, l.policy ≠ p.ID)
    (heff : p.Effect = "allow" ∨ p.Effect = "deny")
    (hneS : p.Subjects ≠ []) (hneP : p.Permissions ≠ []) (hneR : p.Resources ≠ [])
    (hndS : p.Subjects.Nodup) (hndP : p.Permissions.Nodup) (hndR : p.Resources.Nodup)
    (hc : ∀ t ∈ p.Subjects ++ p.Permissions ++ p.Resources,
      (CompileRegex t p.startDelim p.endDelim).isOk = true) :
    ∃ db' q, Create noFaults db p = (.ok (), db') ∧ Get noFaults db' p.ID = .ok q ∧
      q.ID = p.ID ∧ q.Description = p.Description ∧ q.Effect = p.Effect ∧
      q.Conditions = some (p.Conditions.getD []) ∧
      q.Subjects = p.Subjects ∧ q.Permissions = p.Permissions ∧
      q.Resources = p.Resources ∧
      (∀ t, t ∈ q.Subjects ↔ t ∈ p.Subjects) ∧
      (∀ t, t ∈ q.Permissions ↔ t ∈ p.Permissions) ∧
      (∀ t, t ∈ q.Resources ↔ t ∈ p.Resources) := by
  obtain ⟨db', hcr, hpol, hmapS, hmapP, hmapR⟩ :=
    Create_ok noFaults db p rfl rfl rfl rfl (fun _ _ => rfl) hfresh heff
      (fun t ht => hc t (by simp [ht]))
      (fun t ht => hc t (by simp [ht]))
      (fun t ht => hc t (by simp [ht]))
      hndS hndP hndR hlS hlP hlR
  have hfind : db'.policies.find? (fun r => r.id == p.ID) =
      some { id := p.ID, description := p.Description, effect := p.Effect,
             conditions := CondBlob.wellFormed (p.Conditions.getD []) } := by
    rw [hpol]
    exact find?_append_right _ _ _ (fun r hr => by simpa using hfresh r hr) (by simp)
  have hget := Get_ok_shape noFaults db' p.ID _ (p.Conditions.getD []) rfl hfind rfl
    (fun _ => rfl)
  have hS : ((linksOf .subject db').filter (fun l => l.policy == p.ID)).map
      (fun l => l.template) = p.Subjects :=
    filter_map_template _ db.subjectLinks _ _ hmapS hlS
  have hP : ((linksOf .permission db').filter (fun l => l.policy == p.ID)).map
      (fun l => l.template) = p.Permissions :=
    filter_map_template _ db.permissionLinks _ _ hmapP hlP
  have hR : ((linksOf .resource db').filter (fun l => l.policy == p.ID)).map
      (fun l => l.template) = p.Resources :=
    filter_map_template _ db.resourceLinks _ _ hmapR hlR
  refine ⟨db', _, hcr, hget, rfl, rfl, rfl, rfl, hS, hP, hR, ?_, ?_, ?_⟩
  · intro t; rw [hS]
  · intro t; rw [hP]
  · intro t; rw [hR]

/-- Witness for C2: the sample policy round-trips through the empty store. -/
theorem C2_round_trip_witness :
    ∃ db' q, Create noFaults dbEmpty samplePolicy = (.ok (), db') ∧
      Get noFaults db' samplePolicy.ID = .ok q ∧
      q.ID = samplePolicy.ID ∧ q.Description = samplePolicy.Description ∧
      q.Effect = samplePolicy.Effect ∧
      q.Conditions = some (samplePolicy.Conditions.getD []) ∧
      q.Subjects = samplePolicy.Subjects ∧ q.Permissions = samplePolicy.Permissions ∧
      q.Resources = samplePolicy.Resources ∧
      (∀ t, t ∈ q.Subjects ↔ t ∈ samplePolicy.Subjects) ∧
      (∀ t, t ∈ q.Permissions ↔ t ∈ samplePolicy.Permissions) ∧
      (∀ t, t ∈ q.Resources ↔ t ∈ samplePolicy.Resources) :=
  C2_round_trip dbEmpty samplePolicy (by decide) (by decide) (by decide) (by decide)
    (by decide) (by decide) (by decide) (by decide) (by decide) (by decide) (by decide)
    (by decide)

/-- C3: a stored policy with zero subject link entries (a global policy) is
included in FindPoliciesForSubject(s) for every subject string s, in any
well-formed store (conditions blobs decode; link rows reference existing
policies). -/
theorem C3_global_policy (db : DB) (s : String) (row : PolicyRow)
    (hmem : row ∈ db.policies)
    (hnosub : ∀ l ∈ db.subjectLinks, l.policy ≠ row.id)
    (hwf : ∀ r ∈ db.policies, ∃ cs, jsonUnmarshal r.conditions = .ok cs)
    (hfk : ∀ l ∈ db.subjectLinks, ∃ r ∈ db.policies, r.id = l.policy) :
    ∃ ps, FindPoliciesForSubject noFaults db s = .ok ps ∧ ∃ q ∈ ps, q.ID = row.id := by
  have hget : ∀ id : String, (∃ r ∈ db.policies, r.id = id) →
      ∃ q, Get noFaults db id = .ok q := by
    intro id ⟨r, hr, hrid⟩
    have hsome : (db.policies.find? (fun r' => r'.id == id)).isSome := by
      rw [List.find?_isSome]
      exact ⟨r, hr, by simp [hrid]⟩
    obtain ⟨row', hrow'⟩ := Option.isSome_iff_exists.mp hsome
    obtain ⟨cs, hcs⟩ := hwf row' (List.mem_of_find?_eq_some hrow')
    exact ⟨_, Get_ok_shape noFaults db id row' cs rfl hrow' hcs (fun _ => rfl)⟩
  have hall : ∀ id ∈ subjectMatchIds db s ++ globalIds db,
      ∃ q, Get noFaults db id = .ok q := by
    intro id hid
    rcases List.mem_append.mp hid with h | h
    · obtain ⟨l, hl, rfl⟩ := List.mem_map.mp h
      exact hget l.policy (hfk l (List.mem_filter.mp hl).1)
    · obtain ⟨r, hr, rfl⟩ := List.mem_map.mp h
      exact hget r.id ⟨r, (List.mem_filter.mp hr).1, rfl⟩
  obtain ⟨ps, hps, hmap⟩ := hydrate_ok noFaults db _ hall
  refine ⟨ps, by rw [find_noFaults]; exact hps, ?_⟩
  have hglob : row.id ∈ globalIds db := by
    apply List.mem_map.mpr
    refine ⟨row, List.mem_filter.mpr ⟨hmem, ?_⟩, rfl⟩
    apply List.all_eq_true.mpr
    intro l hl
    simpa using hnosub l hl
  have : row.id ∈ ps.map (fun q => q.ID) := by
    rw [hmap]
    exact List.mem_append_right _ hglob
  obtain ⟨q, hq, hqid⟩ := List.mem_map.mp this
  exact ⟨q, hq, hqid⟩

def gRow : PolicyRow :=
  { id := "g1", description := "", effect := "allow", conditions := CondBlob.wellFormed [] }

def dbGlobal : DB :=
  { policies := [gRow]
    subjectLinks := []
    permissionLinks := []
    resourceLinks := [] }

/-- Witness for C3: a store holding one subject-less policy returns it for an
arbitrary subject. -/
theorem C3_global_policy_witness :
    ∃ ps, FindPoliciesForSubject noFaults dbGlobal "any:subject" = .ok ps ∧
      ∃ q ∈ ps, q.ID = gRow.id := by
  refine C3_global_policy dbGlobal "any:subject" gRow ?_ ?_ ?_ ?_
  · exact List.mem_singleton.mpr rfl
  · intro l hl
    exact absurd hl (List.not_mem_nil l)
  · intro r hr
    obtain rfl := List.mem_singleton.mp hr
    exact ⟨[], rfl⟩
  · intro l hl
    exact absurd hl (List.not_mem_nil l)

def compiledDigits : Regex := (CompileRegex "<[0-9]+>" '<' '>').toOption.getD .emp

def p1Row : PolicyRow :=
  { id := "p1", description := "", effect := "allow", conditions := CondBlob.wellFormed [] }

def digitsLink : LinkRow :=
  { compiled := compiledDigits, template := "<[0-9]+>", policy := "p1" }

def db4 : DB :=
  { policies := [p1Row]
    subjectLinks := [digitsLink]
    permissionLinks := []
    resourceLinks := [] }

def rec4 : DefaultPolicy :=
  { ID := "p1"
    Description := ""
    Effect := "allow"
    Conditions := some []
    Subjects := ["<[0-9]+>"]
    Permissions := []
    Resources := []
    startDelim := '<'
    endDelim := '>' }

/-- C4: subject matching is anchored full-string matching: the anchored
search the SQL performs equals full-string acceptance (a pattern matching
only a proper substring never counts), the subject-match clause selects a
policy exactly when one of its subject link entries' compiled pattern
accepts the whole string, and for the sole subject template `<[0-9]+>` the
query includes the policy for "123" and not for "abc". -/
theorem C4_anchored_matching :
    (∀ (r : Regex) (s : String), pgSearchAnchoredCI r s = accept true r s.data) ∧
    (∀ (db : DB) (s : String) (pid : String),
      pid ∈ subjectMatchIds db s ↔
        ∃ l, l ∈ db.subjectLinks ∧ l.policy = pid ∧ accept true l.compiled s.data = true) ∧
    CompileRegex "<[0-9]+>" '<' '>' = .ok compiledDigits ∧
    FindPoliciesForSubject noFaults db4 "123" = .ok [rec4] ∧
    FindPoliciesForSubject noFaults db4 "abc" = .ok [] := by
  refine ⟨pgSearchAnchoredCI_eq_accept, ?_, by decide, by decide, by decide⟩
  intro db s pid
  unfold subjectMatchIds
  constructor
  · intro h
    obtain ⟨l, hl, rfl⟩ := List.mem_map.mp h
    have hf := List.mem_filter.mp hl
    refine ⟨l, hf.1, rfl, ?_⟩
    rw [← pgSearchAnchoredCI_eq_accept]
    exact hf.2
  · rintro ⟨l, hl, rfl, hacc⟩
    refine List.mem_map.mpr ⟨l, List.mem_filter.mpr ⟨hl, ?_⟩, rfl⟩
    rw [pgSearchAnchoredCI_eq_accept]
    exact hacc

/-- Witness for C4: the anchoring equation instantiated at the compiled
digits pattern and the string "123". -/
theorem C4_anchored_matching_witness :
    pgSearchAnchoredCI compiledDigits "123" = accept true compiledDigits "123".data :=
  C4_anchored_matching.1 compiledDigits "123"

def compiledAny : Regex := (CompileRegex "<.+>" '<' '>').toOption.getD .emp

def anyLink : LinkRow :=
  { compiled := compiledAny, template := "<.+>", policy := "p1" }

def db5 : DB :=
  { policies := [p1Row]
    subjectLinks := [anyLink, digitsLink]
    permissionLinks := []
    resourceLinks := [] }

def resultIds : Except Err (List DefaultPolicy) → List String
  | .ok ps => ps.map (fun q => q.ID)
  | .error _ => []

/-- Counterexample to C5: a policy whose two subject templates `<.+>` and
`<[0-9]+>` both match "123" is returned twice — the subject-match query
yields one row per matching link entry, with no de-duplication. -/
theorem C5_counterexample :
    (resultIds (FindPoliciesForSubject noFaults db5 "123")).count "p1" = 2 := by decide

/-- C5 amended: each policy id occurs at most once provided no two subject
link entries of the same policy match the subject (the subject clause
contributes one occurrence per matching link row); a policy can never occur
through both the subject-match clause and the zero-subject-entries clause. -/
theorem C5_amended_no_duplicates (db : DB) (s : String) (ps : List DefaultPolicy)
    (pid : String)
    (hnodup : (db.policies.map (fun r => r.id)).Nodup)
    (hmatch : (subjectMatchIds db s).Nodup)
    (hfind : FindPoliciesForSubject noFaults db s = .ok ps) :
    (ps.map (fun q => q.ID)).count pid ≤ 1 := by
  rw [find_noFaults] at hfind
  rw [hydrate_map_ID noFaults db _ ps hfind, List.count_append]
  have hglob_nodup : (globalIds db).Nodup := by
    unfold globalIds
    have hsub : List.Sublist
        ((db.policies.filter
          (fun r => db.subjectLinks.all (fun l => !(l.policy == r.id)))).map (fun r => r.id))
        (db.policies.map (fun r => r.id)) :=
      (List.filter_sublist _).map _
    exact hnodup.sublist hsub
  by_cases hin : pid ∈ subjectMatchIds db s
  · have hnot : pid ∉ globalIds db := by
      obtain ⟨l, hl, rfl⟩ := List.mem_map.mp hin
      have hf := List.mem_filter.mp hl
      intro hg
      obtain ⟨r, hr, hid⟩ := List.mem_map.mp hg
      have hall := List.all_eq_true.mp (List.mem_filter.mp hr).2 l hf.1
      rw [hid] at hall
      simp at hall
    rw [List.count_eq_zero.mpr hnot]
    have := List.nodup_iff_count_le_one.mp hmatch pid
    omega
  · rw [List.count_eq_zero.mpr hin]
    have := List.nodup_iff_count_le_one.mp hglob_nodup pid
    omega

/-- Witness for C5's amended statement: in the single-matching-entry store
the policy id occurs at most once. -/
theorem C5_amended_no_duplicates_witness :
    (([rec4] : List DefaultPolicy).map (fun q => q.ID)).count "p1" ≤ 1 :=
  C5_amended_no_duplicates db4 "123" [rec4] "p1" (by decide) (by decide) (by decide)

def pBadTemplate : DefaultPolicy :=
  { ID := "p6"
    Description := ""
    Effect := "allow"
    Conditions := none
    Subjects := ["users:<unterminated"]
    Permissions := []
    Resources := []
    startDelim := '<'
    endDelim := '>' }

/-- C6 evidence: compiling `users:<unterminated` fails, and `Create` then
terminates by a panic (the source never checks the `CompileRegex` error and
dereferences the nil compiled pattern) instead of returning the compilation
error; nothing becomes visible and a subsequent Get returns NotFound. -/
theorem C6_compile_failure_panics :
    (CompileRegex "users:<unterminated" '<' '>').isOk = false ∧
    Create noFaults dbEmpty pBadTemplate = (.panic, dbEmpty) ∧
    Get noFaults (Create noFaults dbEmpty pBadTemplate).2 "p6" = .error Err.notFound :=
  ⟨by decide, by decide, by decide⟩

def fCommitRollback : Faults := { noFaults with commitFails := true, rollbackFails := true }

def pNoTemplates : DefaultPolicy :=
  { ID := "p7"
    Description := ""
    Effect := "allow"
    Conditions := none
    Subjects := []
    Permissions := []
    Resources := []
    startDelim := '<'
    endDelim := '>' }

/-- Counterexample to C7: when the commit fails and the rollback also fails,
`Create` returns only the rollback error — a value carrying nothing of the
original commit failure — so the original stage error is silently discarded
rather than surfaced alongside the rollback failure. -/
theorem C7_counterexample :
    Create fCommitRollback dbEmpty pNoTemplates = (.err Err.rollbackFailed, dbEmpty) ∧
    Err.rollbackFailed ≠ Err.commitFailed :=
  ⟨by decide, by decide⟩

/-- C7 amended: when a failed stage triggers a rollback and the rollback
itself fails, `Create` returns the rollback error alone and discards the
original stage error — both at the commit site (first conjunct) and at the
link-insert site inside `createLink` (second conjunct). -/
theorem C7_amended_rollback_error_only (f : Faults) (db : DB) (p : DefaultPolicy)
    (hc : f.commitFails = true) (hr : f.rollbackFails = true)
    (hm : f.marshalFails = false) (hb : f.beginFails = false)
    (hi : f.insertPolicyFails = false)
    (hfl : ∀ tb t, f.linkFails tb t = false)
    (hfresh : ∀ r ∈ db.policies, r.id ≠ p.ID)
    (heff : p.Effect = "allow" ∨ p.Effect = "deny")
    (hcS : ∀ t ∈ p.Subjects, (CompileRegex t p.startDelim p.endDelim).isOk = true)
    (hcP : ∀ t ∈ p.Permissions, (CompileRegex t p.startDelim p.endDelim).isOk = true)
    (hcR : ∀ t ∈ p.Resources, (CompileRegex t p.startDelim p.endDelim).isOk = true)
    (hndS : p.Subjects.Nodup) (hndP : p.Permissions.Nodup) (hndR : p.Resources.Nodup)
    (hlS : ∀ l ∈ db.subjectLinks, l.policy ≠ p.ID)
    (hlP : ∀ l ∈ db.permissionLinks, l.policy ≠ p.ID)
    (hlR : ∀ l ∈ db.resourceLinks, l.policy ≠ p.ID) :
    Create f db p = (.err Err.rollbackFailed, db) ∧
    (∀ (g : Faults) (tb : Table) (t : String) (rest : List String) (tx : DB) (reg : Regex),
      CompileRegex t p.startDelim p.endDelim = .ok reg →
      g.linkFails tb t = true → g.rollbackFails = true →
      createLink g tb p (t :: rest) tx = (.err Err.rollbackFailed, tx)) := by
  constructor
  · have hany : db.policies.any (fun r => r.id == p.ID) = false := by
      apply List.any_eq_false.mpr
      intro r hrr
      simpa using hfresh r hrr
    have heffb : (!(p.Effect == "allow" || p.Effect == "deny")) = false := by
      rcases heff with h | h <;> simp [h]
    set tx0 : DB :=
      { db with
        policies := db.policies ++
          [{ id := p.ID, description := p.Description, effect := p.Effect,
             conditions := CondBlob.wellFormed (p.Conditions.getD []) }] } with htx0
    obtain ⟨tx1, he1, _, _, hoth1⟩ :=
      createLink_ok f .subject p p.Subjects tx0 hcS (fun t _ => hfl .subject t) hndS
        (fun l hl hp => absurd hp (hlS l hl))
    obtain ⟨tx2, he2, _, _, hoth2⟩ :=
      createLink_ok f .permission p p.Permissions tx1 hcP (fun t _ => hfl .permission t) hndP
        (by
          intro l hl hp
          rw [hoth1 .permission (by decide)] at hl
          exact absurd hp (hlP l hl))
    obtain ⟨tx3, he3, _, _, _⟩ :=
      createLink_ok f .resource p p.Resources tx2 hcR (fun t _ => hfl .resource t) hndR
        (by
          intro l hl hp
          rw [hoth2 .resource (by decide), hoth1 .resource (by decide)] at hl
          exact absurd hp (hlR l hl))
    unfold Create
    rw [serializeConditions_ok f p hm]
    dsimp only
    rw [hb, hi, hany, heffb]
    simp only [Bool.false_eq_true, if_false]
    rw [← htx0, he1]
    dsimp only
    rw [he2]
    dsimp only
    rw [he3]
    dsimp only
    rw [hc, hr]
    simp
  · intro g tb t rest tx reg hreg hlf hgr
    unfold createLink
    rw [hreg]
    dsimp only [Except.toOption]
    rw [hlf, hgr]
    simp

/-- Witness for C7's amended statement: the commit-site behaviour at a
concrete run. -/
theorem C7_amended_rollback_error_only_witness :
    Create fCommitRollback dbEmpty pNoTemplates = (.err Err.rollbackFailed, dbEmpty) :=
  (C7_amended_rollback_error_only fCommitRollback dbEmpty pNoTemplates rfl rfl rfl rfl rfl
    (fun _ _ => rfl) (by decide) (by decide) (by decide) (by decide) (by decide)
    (by decide) (by decide) (by decide) (by decide) (by decide) (by decide)).1

/-- With the policy row found, `Get` can only succeed, fail to decode the
conditions blob, or fail a dimension fetch — it can never report NotFound. -/
theorem Get_found_result (f : Faults) (db : DB) (id : String) (row : PolicyRow)
    (hq : f.rowQueryFails = false)
    (hfind : db.policies.find? (fun r => r.id == id) = some row) :
    (∃ q, Get f db id = .ok q) ∨ Get f db id = .error Err.unmarshalFailed ∨
    (∃ tb, Get f db id = .error (Err.queryFailed tb)) := by
  unfold Get
  rw [hq]
  simp only [Bool.false_eq_true, if_false]
  rw [hfind]
  dsimp only
  cases hcond : row.conditions with
  | garbage s => simp [jsonUnmarshal]
  | wellFormed cs =>
    simp only [jsonUnmarshal]
    unfold getLinked
    by_cases h1 : f.getLinkedFails .subject
    · simp [h1]
    · by_cases h2 : f.getLinkedFails .permission
      · simp [h1, h2]
      · by_cases h3 : f.getLinkedFails .resource
        · simp [h1, h2, h3]
        · simp [h1, h2, h3]

/-- C8: with a healthy policy-row read, Get reports NotFound exactly when no
row with the id exists; a found row whose conditions blob fails to decode
yields that decoding error, and a failing dimension fetch yields that fetch
error — never a partial record. -/
theorem C8_get_error_semantics (f : Faults) (db : DB) (id : String)
    (hq : f.rowQueryFails = false) :
    (Get f db id = .error Err.notFound ↔ ∀ r ∈ db.policies, r.id ≠ id) ∧
    (∀ row, db.policies.find? (fun r => r.id == id) = some row →
      jsonUnmarshal row.conditions = .error Err.unmarshalFailed →
      Get f db id = .error Err.unmarshalFailed) ∧
    (∀ row cs, db.policies.find? (fun r => r.id == id) = some row →
      jsonUnmarshal row.conditions = .ok cs →
      f.getLinkedFails .subject = true →
      Get f db id = .error (Err.queryFailed .subject)) ∧
    (∀ row cs, db.policies.find? (fun r => r.id == id) = some row →
      jsonUnmarshal row.conditions = .ok cs →
      f.getLinkedFails .subject = false → f.getLinkedFails .permission = true →
      Get f db id = .error (Err.queryFailed .permission)) ∧
    (∀ row cs, db.policies.find? (fun r => r.id == id) = some row →
      jsonUnmarshal row.conditions = .ok cs →
      f.getLinkedFails .subject = false → f.getLinkedFails .permission = false →
      f.getLinkedFails .resource = true →
      Get f db id = .error (Err.queryFailed .resource)) := by
  refine ⟨⟨?_, ?_⟩, ?_, ?_, ?_, ?_⟩
  · intro h r hr hrid
    cases hfind : db.policies.find? (fun r' => r'.id == id) with
    | none =>
      have := List.find?_eq_none.mp hfind r hr
      simp [hrid] at this
    | some row =>
      rcases Get_found_result f db id row hq hfind with ⟨q, hqq⟩ | hu | ⟨tb, htb⟩
      · rw [hqq] at h; simp at h
      · rw [hu] at h; simp at h
      · rw [htb] at h; simp at h
  · intro hfresh
    unfold Get
    rw [hq]
    simp only [Bool.false_eq_true, if_false]
    rw [List.find?_eq_none.mpr (fun r hr => by simpa using hfresh r hr)]
  · intro row hfind hum
    unfold Get
    rw [hq]
    simp only [Bool.false_eq_true, if_false]
    rw [hfind]
    dsimp only
    rw [hum]
  · intro row cs hfind hum h1
    unfold Get
    rw [hq]
    simp only [Bool.false_eq_true, if_false]
    rw [hfind]
    dsimp only
    rw [hum]
    dsimp only
    unfold getLinked
    rw [h1]
    rfl
  · intro row cs hfind hum h1 h2
    unfold Get
    rw [hq]
    simp only [Bool.false_eq_true, if_false]
    rw [hfind]
    dsimp only
    rw [hum]
    dsimp only
    unfold getLinked
    rw [h1, h2]
    rfl
  · intro row cs hfind hum h1 h2 h3
    unfold Get
    rw [hq]
    simp only [Bool.false_eq_true, if_false]
    rw [hfind]
    dsimp only
    rw [hum]
    dsimp only
    unfold getLinked
    rw [h1, h2, h3]
    rfl

def badRow : PolicyRow :=
  { id := "b1", description := "", effect := "allow", conditions := CondBlob.garbage "oops" }

def dbBad : DB :=
  { policies := [badRow], subjectLinks := [], permissionLinks := [], resourceLinks := [] }

/-- Witness for C8: a garbage conditions blob makes Get surface the decode
failure, not NotFound and not a partial record. -/
theorem C8_get_error_semantics_witness :
    Get noFaults dbBad "b1" = .error Err.unmarshalFailed :=
  (C8_get_error_semantics noFaults dbBad "b1" rfl).2.1 badRow (by decide) (by decide)

/-- C9: when no subject link entry matches and no global policy exists,
FindPoliciesForSubject succeeds with the empty result — absence of matches
is not an error (the `ErrNotFound` normalization in the row loop is dead
code for a multi-row query). -/
theorem C9_no_match_empty_success (db : DB) (s : String)
    (hnomatch : ∀ l ∈ db.subjectLinks, pgSearchAnchoredCI l.compiled s = false)
    (hnoglobal : ∀ r ∈ db.policies, ∃ l ∈ db.subjectLinks, l.policy = r.id) :
    FindPoliciesForSubject noFaults db s = .ok [] := by
  rw [find_noFaults]
  have h1 : subjectMatchIds db s = [] := by
    unfold subjectMatchIds
    rw [List.filter_eq_nil_iff.mpr (fun l hl => by simp [hnomatch l hl])]
    rfl
  have h2 : globalIds db = [] := by
    unfold globalIds
    rw [List.filter_eq_nil_iff.mpr ?_]
    · rfl
    · intro r hr
      obtain ⟨l, hl, hlp⟩ := hnoglobal r hr
      intro hall
      have := List.all_eq_true.mp hall l hl
      simp [hlp] at this
  rw [h1, h2]
  rfl

/-- Witness for C9: "abc" matches no digit template and the store has no
global policy, so the query succeeds with no rows. -/
theorem C9_no_match_empty_success_witness :
    FindPoliciesForSubject noFaults db4 "abc" = .ok [] :=
  C9_no_match_empty_success db4 "abc" (by decide) (by decide)

/-- C10: Get succeeds for a stored policy even when one or more dimensions
has zero link entries; each dimension comes back as exactly the templates
linked to the id, the empty list when there are none — a zero-row fetch is
success, not NotFound. -/
theorem C10_empty_dimensions_ok (db : DB) (id : String) (row : PolicyRow) (cs : Conditions)
    (hfind : db.policies.find? (fun r => r.id == id) = some row)
    (hum : jsonUnmarshal row.conditions = .ok cs) :
    ∃ q, Get noFaults db id = .ok q ∧
      q.Subjects = (db.subjectLinks.filter (fun l => l.policy == id)).map
        (fun l => l.template) ∧
      q.Permissions = (db.permissionLinks.filter (fun l => l.policy == id)).map
        (fun l => l.template) ∧
      q.Resources = (db.resourceLinks.filter (fun l => l.policy == id)).map
        (fun l => l.template) ∧
      ((∀ l ∈ db.subjectLinks, l.policy ≠ id) → q.Subjects = []) ∧
      ((∀ l ∈ db.permissionLinks, l.policy ≠ id) → q.Permissions = []) ∧
      ((∀ l ∈ db.resourceLinks, l.policy ≠ id) → q.Resources = []) := by
  refine ⟨_, Get_ok_shape noFaults db id row cs rfl hfind hum (fun _ => rfl),
    rfl, rfl, rfl, ?_, ?_, ?_⟩
  · intro h
    show (db.subjectLinks.filter (fun l => l.policy == id)).map (fun l => l.template) = []
    rw [List.filter_eq_nil_iff.mpr (fun l hl => by simp [h l hl])]
    rfl
  · intro h
    show (db.permissionLinks.filter (fun l => l.policy == id)).map (fun l => l.template) = []
    rw [List.filter_eq_nil_iff.mpr (fun l hl => by simp [h l hl])]
    rfl
  · intro h
    show (db.resourceLinks.filter (fun l => l.policy == id)).map (fun l => l.template) = []
    rw [List.filter_eq_nil_iff.mpr (fun l hl => by simp [h l hl])]
    rfl

/-- Witness for C10: the subject-less policy reads back with three empty
dimensions. -/
theorem C10_empty_dimensions_ok_witness :
    ∃ q, Get noFaults dbGlobal "g1" = .ok q ∧
      q.Subjects = (dbGlobal.subjectLinks.filter (fun l => l.policy == "g1")).map
        (fun l => l.template) ∧
      q.Permissions = (dbGlobal.permissionLinks.filter (fun l => l.policy == "g1")).map
        (fun l => l.template) ∧
      q.Resources = (dbGlobal.resourceLinks.filter (fun l => l.policy == "g1")).map
        (fun l => l.template) ∧
      ((∀ l ∈ dbGlobal.subjectLinks, l.policy ≠ "g1") → q.Subjects = []) ∧
      ((∀ l ∈ dbGlobal.permissionLinks, l.policy ≠ "g1") → q.Permissions = []) ∧
      ((∀ l ∈ dbGlobal.resourceLinks, l.policy ≠ "g1") → q.Resources = []) :=
  C10_empty_dimensions_ok dbGlobal "g1" gRow [] (by decide) (by decide)

end Ladon
